import Mathlib

/-!
Verification of the sidevm-offchain-probing core against its specification.

This file shallowly embeds the Rust sources of the repository:
  * `src/sidevm-probing/src/utils.rs`   (euclidean_distance, get_address_by_id)
  * `src/sidevm-probing/src/probe.rs`   (Peer, Probe, echo, estimate, ...)
  * `src/sidevm-probing/src/optimize.rs` (compute_loss, collect_telemetry, optimize)

Modelling conventions:
  * `f64` values are modelled as exact rationals `ℚ`; `f64::sqrt` is an
    explicit function parameter `sqrt : ℚ → ℚ` of the definitions that need
    it (its numeric value never matters for the control flow of the code).
    `ratSqrt` is a concrete instance that is exact on perfect squares and is
    used for concrete evaluations.
  * Rust `HashMap` is modelled as an association list with the operations
    the source uses (`get`/`get_mut` = `alookup`, `insert` = `ainsert`,
    `contains_key` = `acontains`, `retain` = `List.filter`, iteration = the
    list order, which determinizes the unspecified `HashMap` order; every
    quantity the claims mention is independent of that order).
  * A Rust computation that can panic (an `expect`, `unwrap`, out-of-bounds
    index, or the `panic` arm of `get_address_by_id`) or abort the optimizer
    round with an error propagated by `?` is modelled in `Option`, with
    `none` for the abnormal outcome.
  * Machine integers are modelled as `ℕ` with explicit `% 2^64` where the
    source wraps; `u128::MAX` is the literal `2^128 - 1`.
  * The network, the scheduler and the RNG are modelled by an environment
    `Env` that supplies the sampled batches, the echo outcomes, the random
    vectors and the fetched remote maps of one optimizer round.
-/

/-- Association-list lookup, modelling `HashMap::get`. -/
def alookup {α : Type} : List (String × α) → String → Option α
  | [], _ => none
  | (k0, v0) :: rest, k => if k0 = k then some v0 else alookup rest k

/-- Association-list insert, modelling `HashMap::insert` (replaces the
binding if the key is present, otherwise appends it). -/
def ainsert {α : Type} : List (String × α) → String → α → List (String × α)
  | [], k, v => [(k, v)]
  | (k0, v0) :: rest, k, v =>
    if k0 = k then (k, v) :: rest else (k0, v0) :: ainsert rest k v

/-- Modelling `HashMap::contains_key`. -/
def acontains {α : Type} (l : List (String × α)) (k : String) : Bool :=
  (alookup l k).isSome

/-- The values of an association list, modelling `HashMap::values`. -/
def avalues {α : Type} (l : List (String × α)) : List α :=
  l.map (fun kv => kv.2)

/-- Component-wise vector sum (`zip` + `+` in the source; truncates to the
shorter list exactly as `Iterator::zip` does). -/
def vadd (a b : List ℚ) : List ℚ := List.zipWith (· + ·) a b

/-- Component-wise vector difference, as built by `zip` + `-` in the source. -/
def vsub (a b : List ℚ) : List ℚ := List.zipWith (· - ·) a b

/-- `vec![0.0; d]` of the source. -/
def zeros (d : ℕ) : List ℚ := List.replicate d 0

/-- `u128::MAX`, the initial value of `best_latency` in `Peer::echo`. -/
def u128Max : ℕ := 2 ^ 128 - 1

/-- `f64::MAX`, the initial value of `min_loss` in the optimizer. -/
def fMax : ℚ := 2 ^ 1024 - 2 ^ 971

/-- A concrete stand-in for `f64::sqrt`, exact on rationals whose numerator
and denominator are perfect squares (all concrete inputs below are). -/
def ratSqrt (q : ℚ) : ℚ := (Nat.sqrt q.num.toNat : ℚ) / (Nat.sqrt q.den : ℚ)

/-- `euclidean_distance` from `src/sidevm-probing/src/utils.rs`: the square
root of the sum of squared component differences over the zipped vectors. -/
def euclidean_distance (sqrt : ℚ → ℚ) (a b : List ℚ) : ℚ :=
  sqrt ((List.zipWith (fun i j => (i - j) ^ 2) a b).foldl (· + ·) 0)

/-- The error kinds of §7 of the specification that the embedded code
produces. -/
inductive ProbeError : Type where
  | allEndpointsDown : ProbeError
  | notAPeer : String → ProbeError
  | offline : String → ProbeError
  | notResolved : String → ProbeError
  deriving DecidableEq, Repr

/-- The eight peer ids hard-coded in `get_address_by_id`. -/
def knownPeerIds : List String :=
  ["00000000", "00000001", "00000002", "00000003",
   "00000004", "00000005", "00000006", "00000007"]

/-- `get_address_by_id` from `src/sidevm-probing/src/utils.rs`.  The Rust
function returns `Result<Vec<String>>` but reaches the `panic` arm for any
id other than the eight hard-coded ones; `none` models that panic, and
`some r` models a normal return of the `Result` value `r`. -/
def get_address_by_id (id : String) : Option (Except ProbeError (List String)) :=
  if id = "00000000" then some (Except.ok ["127.0.0.1:2000"])
  else if id = "00000001" then some (Except.ok ["127.0.0.1:2001"])
  else if id = "00000002" then some (Except.ok ["127.0.0.1:2002"])
  else if id = "00000003" then some (Except.ok ["127.0.0.1:2003"])
  else if id = "00000004" then some (Except.ok ["127.0.0.1:2004"])
  else if id = "00000005" then some (Except.ok ["127.0.0.1:2005"])
  else if id = "00000006" then some (Except.ok ["127.0.0.1:2006"])
  else if id = "00000007" then some (Except.ok ["127.0.0.1:2007"])
  else none

/-- The `Peer` record of `src/sidevm-probing/src/probe.rs` (`offline_cnt`
is a `u8` in the source; the claims never exercise its wrap, so it is a
`ℕ` here). -/
structure Peer : Type where
  encodedPublicKey : String
  bestEndpoint : String
  endpoints : List String
  offlineCnt : ℕ
  deriving DecidableEq, Repr

/-- `Peer::is_online`: the peer is online iff `offline_cnt == 0`. -/
def Peer.isOnline (p : Peer) : Bool := p.offlineCnt == 0

/-- `Peer::new`: directory lookup, then `best_endpoint := endpoints[0]`.
`none` models a panic (unknown id, or the out-of-bounds index on an empty
directory answer); `some (.error e)` models the `?`-propagated error. -/
def peerNew (id : String) : Option (Except ProbeError Peer) :=
  match get_address_by_id id with
  | none => none
  | some (Except.error e) => some (Except.error e)
  | some (Except.ok []) => none
  | some (Except.ok (e :: es)) =>
      some (Except.ok { encodedPublicKey := id, bestEndpoint := e,
                        endpoints := e :: es, offlineCnt := 0 })

/-- `Peer::update_endpoints`: re-resolve the directory and replace
`endpoints`; the source calls `.unwrap()` on the lookup, so both a panic
inside the lookup and an error value abort (`none`).  No other field is
touched. -/
def updateEndpoints (p : Peer) : Option Peer :=
  match get_address_by_id p.encodedPublicKey with
  | none => none
  | some (Except.error _) => none
  | some (Except.ok eps) => some { p with endpoints := eps }

/-- The running state of the `Peer::echo` endpoint scan:
`best_latency`, `all_endpoints_failed`, `best_endpoint`. -/
structure EchoSt : Type where
  bestLatency : ℕ
  allFailed : Bool
  bestEndpoint : String
  deriving DecidableEq, Repr

/-- One iteration of the endpoint loop in `Peer::echo`.  `out e` is the
outcome of the HTTP GET on endpoint `e`: `none` if it errored, `some t`
with the wall-clock end timestamp (ms) if it succeeded.  `startMs` is the
single timestamp taken before the loop. -/
def echoStep (startMs : ℕ) (out : String → Option ℕ) (st : EchoSt) (e : String) : EchoSt :=
  match out e with
  | none => st
  | some endMs =>
    if endMs - startMs < st.bestLatency then
      { bestLatency := endMs - startMs, allFailed := false, bestEndpoint := e }
    else
      { st with allFailed := false }

/-- `Peer::echo`: scan every endpoint, track the smallest elapsed time and
its endpoint, fail iff no endpoint succeeded, and return
`best_latency + 100` as the ttl. -/
def echo (p : Peer) (startMs : ℕ) (out : String → Option ℕ) : Peer × Option ℚ :=
  let st := p.endpoints.foldl (echoStep startMs out)
    { bestLatency := u128Max, allFailed := true, bestEndpoint := p.bestEndpoint }
  ({ p with bestEndpoint := st.bestEndpoint },
   if st.allFailed then none else some ((st.bestLatency + 100 : ℕ) : ℚ))

/-- `ProbeParameters` from `src/sidevm-probing/src/types.rs`. -/
structure ProbeParameters : Type where
  dimSize : ℕ
  sampleSize : ℕ
  detectionSize : ℕ
  batchSize : ℕ
  beta : ℚ
  lr : ℚ
  patience : ℕ
  factor : ℚ
  minLr : ℚ
  maxIters : ℕ
  maxOfflineCnt : ℕ
  eps : ℚ
  deriving DecidableEq, Repr

/-- `ProbeStatus` from `src/sidevm-probing/src/types.rs`. -/
structure ProbeStatus : Type where
  isOptimizing : Bool
  precisionMs : ℚ
  epoch : ℕ
  deriving DecidableEq, Repr

/-- The `Probe` record of `src/sidevm-probing/src/probe.rs`. -/
structure Probe : Type where
  encodedPublicKey : String
  parameters : ProbeParameters
  telemetry : List (String × ℚ)
  resolved : List (String × List ℚ)
  peers : List (String × Peer)
  pendingPeerIds : List String
  status : ProbeStatus
  deriving DecidableEq, Repr

/-- `Probe::estimate`: check `from` then `to` against `peers` and their
online flags, then look both ids up in `resolved`, then return the
Euclidean distance. -/
def estimate (sqrt : ℚ → ℚ) (s : Probe) (f t : String) : Except ProbeError ℚ :=
  match alookup s.peers f with
  | none => Except.error (ProbeError.notAPeer f)
  | some pf =>
    if pf.isOnline = false then Except.error (ProbeError.offline f)
    else
      match alookup s.peers t with
      | none => Except.error (ProbeError.notAPeer t)
      | some pt =>
        if pt.isOnline = false then Except.error (ProbeError.offline t)
        else
          match alookup s.resolved f with
          | none => Except.error (ProbeError.notResolved f)
          | some vf =>
            match alookup s.resolved t with
            | none => Except.error (ProbeError.notResolved t)
            | some vt => Except.ok (euclidean_distance sqrt vf vt)

/-- `Probe::add_peer`: insert iff the id differs from self and is not yet
present; returns whether it inserted. -/
def addPeer (selfId : String) (peers : List (String × Peer)) (p : Peer) :
    List (String × Peer) × Bool :=
  if p.encodedPublicKey ≠ selfId ∧ acontains peers p.encodedPublicKey = false then
    (ainsert peers p.encodedPublicKey p, true)
  else
    (peers, false)

/-- `Probe::add_pending_peer`: push iff the id differs from self, is not a
peer, and is not already pending. -/
def addPendingPeer (s : Probe) (id : String) : Probe :=
  if id ≠ s.encodedPublicKey ∧ acontains s.peers id = false ∧ id ∉ s.pendingPeerIds then
    { s with pendingPeerIds := s.pendingPeerIds ++ [id] }
  else s

/-- `Probe::stop_optimize`. -/
def stopOptimize (s : Probe) : Probe :=
  { s with status := { s.status with isOptimizing := false } }

/-- The environment of one optimizer round: the batches drawn by
`choose_multiple`, the outcome of every HTTP call, and the random vectors
drawn by `gen_random_vec`.  It determinizes the RNG, the network and the
clock of `src/sidevm-probing/src/optimize.rs`. -/
structure Env : Type where
  onlineBatch : List String
  offlineBatch : List String
  echoStart : String → ℕ
  echoOut : String → String → Option ℕ
  gradBatch : ℕ → List String
  randVec : String → List ℚ
  aggBatch : List String
  fetchResolved : String → Option (List (String × List ℚ))

/-- The loop body of `compute_loss` over the telemetry entries, carrying
the running total.  `none` models the `expect` panic when a non-skipped
entry has no resolved coordinate. -/
def computeLossAux (sqrt : ℚ → ℚ) (selfId : String) (peers : List (String × Peer))
    (resolved : List (String × List ℚ)) (myPos : List ℚ) (denom : ℚ) :
    ℚ → List (String × ℚ) → Option ℚ
  | acc, [] => some acc
  | acc, (id, label) :: rest =>
    if id = selfId then computeLossAux sqrt selfId peers resolved myPos denom acc rest
    else
      let skip : Bool :=
        match alookup peers id with
        | some p => p.isOnline = false
        | none => false
      if skip then computeLossAux sqrt selfId peers resolved myPos denom acc rest
      else
        match alookup resolved id with
        | none => none
        | some pos =>
          computeLossAux sqrt selfId peers resolved myPos denom
            (acc + |label - euclidean_distance sqrt myPos pos| / denom) rest

/-- `compute_loss` from `src/sidevm-probing/src/optimize.rs`: fetch the
self position (panicking if absent), then sum
`|telemetry[id] - dist| / (|telemetry| - 1 + eps)` over the telemetry
entries, skipping self and skipping an id only when it is present in the
`peers` argument and offline. -/
def computeLoss (sqrt : ℚ → ℚ) (selfId : String) (peers : List (String × Peer))
    (telemetry : List (String × ℚ)) (resolved : List (String × List ℚ))
    (eps : ℚ) : Option ℚ :=
  match alookup resolved selfId with
  | none => none
  | some myPos =>
    computeLossAux sqrt selfId peers resolved myPos
      ((telemetry.length : ℚ) - 1 + eps) 0 telemetry

/-- `collect_telemetry` from `src/sidevm-probing/src/optimize.rs`: for each
batch id, refresh the endpoints, run `echo`, and on success zero the
offline counter and update the telemetry EMA, on failure bump the offline
counter.  `none` models the `?`-propagated lookup error and the
`update_endpoints` panic. -/
def collectTelemetry (env : Env) (beta : ℚ) :
    List String → List (String × ℚ) → List (String × Peer) →
    Option (List (String × ℚ) × List (String × Peer))
  | [], t, p => some (t, p)
  | id :: rest, t, p =>
    match alookup p id with
    | none => none
    | some peer =>
      match updateEndpoints peer with
      | none => none
      | some peer1 =>
        let r := echo peer1 (env.echoStart id) (env.echoOut id)
        match r.2 with
        | some ttl =>
          let peer2 := { r.1 with offlineCnt := 0 }
          let t1 :=
            match alookup t peer2.encodedPublicKey with
            | some v => ainsert t peer2.encodedPublicKey (v * beta + ttl * (1 - beta))
            | none => ainsert t peer2.encodedPublicKey ttl
          collectTelemetry env beta rest t1 (ainsert p id peer2)
        | none =>
          let peer2 := { r.1 with offlineCnt := r.1.offlineCnt + 1 }
          collectTelemetry env beta rest t (ainsert p id peer2)

/-- The telemetry-collection phase of one round: the online batch, then
the offline batch. -/
def phase2 (s : Probe) (env : Env) :
    Option (List (String × ℚ) × List (String × Peer)) :=
  match collectTelemetry env s.parameters.beta env.onlineBatch s.telemetry s.peers with
  | none => none
  | some (t1, p1) => collectTelemetry env s.parameters.beta env.offlineBatch t1 p1

/-- The inner batch walk of one gradient iteration (step 2 of §4.3):
accumulate the force vector, count the contributing peers, and insert a
random coordinate for each sampled peer missing from `resolved`.  `none`
models the `expect` panic when a batch id is not in `peers`. -/
def batchStep (sqrt : ℚ → ℚ) (params : ProbeParameters) (env : Env)
    (peers : List (String × Peer)) (telemetry : List (String × ℚ))
    (myPos : List ℚ) :
    List String → List ℚ → ℕ → List (String × List ℚ) →
    Option (List ℚ × ℕ × List (String × List ℚ))
  | [], force, k, resolved => some (force, k, resolved)
  | id :: rest, force, k, resolved =>
    match alookup peers id with
    | none => none
    | some peer =>
      if acontains telemetry peer.encodedPublicKey = false then
        batchStep sqrt params env peers telemetry myPos rest force k resolved
      else
        match alookup telemetry peer.encodedPublicKey with
        | none => none
        | some ground =>
          let resolved1 :=
            if acontains resolved peer.encodedPublicKey then resolved
            else ainsert resolved peer.encodedPublicKey (env.randVec peer.encodedPublicKey)
          match alookup resolved1 peer.encodedPublicKey with
          | none => none
          | some peerPos =>
            let prediction := euclidean_distance sqrt myPos peerPos
            let err := ground - prediction
            let direction := List.zipWith (· - ·) myPos peerPos
            let norm := direction.foldl (fun acc x => acc + x ^ 2) 0
            let force1 := List.zipWith
              (fun f x => f + (x / (sqrt norm + params.eps)) * err) force direction
            batchStep sqrt params env peers telemetry myPos rest force1 (k + 1) resolved1

/-- The gradient-descent loop of §4.3, with `fuel := max_iters` remaining
iterations and `iter` the number of completed iterations.  Returns the
final position together with the (possibly extended) resolved map; `none`
models a panic inside the loop. -/
def gradLoop (sqrt : ℚ → ℚ) (params : ProbeParameters) (env : Env)
    (selfId : String) (retained peers : List (String × Peer))
    (telemetry : List (String × ℚ)) :
    ℕ → ℕ → List ℚ → List ℚ → ℚ → ℚ → ℕ → List (String × List ℚ) →
    Option (List ℚ × List (String × List ℚ))
  | 0, _, pos, _, _, _, _, resolved => some (pos, resolved)
  | fuel + 1, iter, pos, momentum, minLoss, lr, patience, resolved =>
    if lr < params.minLr then some (pos, resolved)
    else
      match batchStep sqrt params env peers telemetry pos (env.gradBatch iter)
          (zeros params.dimSize) 0 resolved with
      | none => none
      | some (force, k, resolved1) =>
        if k = 0 then some (pos, resolved1)
        else
          let momentum1 := List.zipWith
            (fun i j => i * params.beta + j * (1 - params.beta) / (k : ℚ)) momentum force
          let pos1 := List.zipWith (fun i j => i + j * lr) pos momentum1
          match computeLoss sqrt selfId retained telemetry resolved1 params.eps with
          | none => none
          | some loss =>
            let ml1 := if loss < minLoss then loss else minLoss
            let pat1 := if loss < minLoss then 0 else patience + 1
            let lr1 := if pat1 > params.patience then lr * params.factor else lr
            let pat2 := if pat1 > params.patience then 0 else pat1
            gradLoop sqrt params env selfId retained peers telemetry
              fuel (iter + 1) pos1 momentum1 ml1 lr1 pat2 resolved1

/-- Phase 3 of one round: fetch the self position (panicking if absent)
and run the gradient loop from the snapshot parameters. -/
def gradPhase (sqrt : ℚ → ℚ) (params : ProbeParameters) (env : Env)
    (selfId : String) (retained peers : List (String × Peer))
    (telemetry : List (String × ℚ)) (resolved : List (String × List ℚ)) :
    Option (List ℚ × List (String × List ℚ)) :=
  match alookup resolved selfId with
  | none => none
  | some myPos =>
    gradLoop sqrt params env selfId retained peers telemetry
      params.maxIters 0 myPos (zeros params.dimSize) fMax params.lr 0 resolved

/-- Merging one fetched remote resolved map (the `for (k, v)` loop of the
aggregation phase): enqueue unseen ids, add vectors component-wise into
existing entries bumping the counter (creating it at `2`), and insert new
entries with counter `1`. -/
def aggMergeOne :
    List (String × List ℚ) → List String → List (String × ℕ) →
    List (String × List ℚ) →
    List (String × List ℚ) × List String × List (String × ℕ)
  | kvs, pending, counter, resolved =>
    match kvs with
    | [] => (resolved, pending, counter)
    | (k, v) :: rest =>
      let pending1 := if k ∈ pending then pending else pending ++ [k]
      match alookup resolved k with
      | some old =>
        let resolved1 := ainsert resolved k (vadd old v)
        let counter1 :=
          match alookup counter k with
          | some c => ainsert counter k (c + 1)
          | none => ainsert counter k 2
        aggMergeOne rest pending1 counter1 resolved1
      | none =>
        aggMergeOne rest pending1 (ainsert counter k 1) (ainsert resolved k v)

/-- The outer aggregation loop over the sampled batch: fetch each peer's
remote map (skipping fetch failures) and merge it.  `none` models the
`expect` panic when a batch id is not in `peers`. -/
def aggLoop (env : Env) (peers : List (String × Peer)) :
    List String → List (String × List ℚ) → List String → List (String × ℕ) →
    Option (List (String × List ℚ) × List String × List (String × ℕ))
  | [], resolved, pending, counter => some (resolved, pending, counter)
  | id :: rest, resolved, pending, counter =>
    match alookup peers id with
    | none => none
    | some _ =>
      match env.fetchResolved id with
      | none => aggLoop env peers rest resolved pending counter
      | some kvs =>
        match aggMergeOne kvs pending counter resolved with
        | (resolved1, pending1, counter1) =>
          aggLoop env peers rest resolved1 pending1 counter1

/-- The averaging pass after the merge: divide every counted entry by its
counter.  `none` models the `expect` panic for a counted key missing from
`resolved` (never reachable). -/
def aggDivide :
    List (String × ℕ) → List (String × List ℚ) → Option (List (String × List ℚ))
  | [], resolved => some resolved
  | (k, c) :: rest, resolved =>
    match alookup resolved k with
    | none => none
    | some v => aggDivide rest (ainsert resolved k (v.map (fun i => i / (c : ℚ))))

/-- The recentering block: fold the centroid over all vectors and subtract
it from every vector. -/
def recenter (dim : ℕ) (resolved : List (String × List ℚ)) :
    List (String × List ℚ) :=
  let n : ℚ := (resolved.length : ℚ)
  let center := (avalues resolved).foldl
    (fun acc x => List.zipWith (fun i j => i + j / n) acc x) (zeros dim)
  resolved.map (fun kv => (kv.1, vsub kv.2 center))

/-- Phase 4 of one round: merge the sampled remote maps, divide by the
aggregation counters, and recenter iff at least one aggregation occurred.
The counter is returned so that "at least one aggregation occurred" can be
stated; the code drops it at the end of the block. -/
def aggPhase (params : ProbeParameters) (env : Env)
    (peers : List (String × Peer)) (resolved : List (String × List ℚ)) :
    Option (List (String × List ℚ) × List String × List (String × ℕ)) :=
  match aggLoop env peers env.aggBatch resolved [] [] with
  | none => none
  | some (resolved1, pending, counter) =>
    match aggDivide counter resolved1 with
    | none => none
    | some resolved2 =>
      some (if 0 < counter.length then recenter params.dimSize resolved2 else resolved2,
            pending, counter)

/-- The epoch update of the publish phase: the source computes
`(epoch + 1) % u64::MAX` on a `u64`, i.e. a wrapping increment followed by
a reduction modulo `2^64 - 1`. -/
def epochNext (e : ℕ) : ℕ := ((e + 1) % 2 ^ 64) % (2 ^ 64 - 1)

/-- The pending-peer admission loop of the publish phase: construct a
`Peer` for every pending id (`none` models both the directory panic and a
`?`-propagated error) and `add_peer` it. -/
def admitPeers (selfId : String) :
    List String → List (String × Peer) → Option (List (String × Peer))
  | [], peers => some peers
  | id :: rest, peers =>
    match peerNew id with
    | none => none
    | some (Except.error _) => none
    | some (Except.ok p) => admitPeers selfId rest (addPeer selfId peers p).1

/-- One round of `optimize` from `src/sidevm-probing/src/optimize.rs`:
gate on `is_optimizing`, collect telemetry, run the gradient loop,
aggregate and recenter, recompute the loss, and publish (telemetry,
resolved, peers, pending admission, status update, eviction).  `none`
models an abnormal end of the round (panic or propagated error). -/
def optRound (sqrt : ℚ → ℚ) (s : Probe) (env : Env) : Option Probe :=
  if s.status.isOptimizing then
    match phase2 s env with
    | none => none
    | some (telemetry2, peers2) =>
      let retained := peers2.filter (fun kv => kv.2.isOnline)
      match gradPhase sqrt s.parameters env s.encodedPublicKey retained peers2
          telemetry2 s.resolved with
      | none => none
      | some (myPos, resolved2) =>
        let resolved3 := ainsert resolved2 s.encodedPublicKey myPos
        match aggPhase s.parameters env peers2 resolved3 with
        | none => none
        | some (resolved4, pendingLocal, _counter) =>
          match computeLoss sqrt s.encodedPublicKey retained telemetry2 resolved4
              s.parameters.eps with
          | none => none
          | some lossVal =>
            match admitPeers s.encodedPublicKey (s.pendingPeerIds ++ pendingLocal) peers2 with
            | none => none
            | some peers3 =>
              some { s with
                telemetry := telemetry2,
                resolved := resolved4,
                peers := peers3.filter
                  (fun kv => kv.2.offlineCnt < s.parameters.maxOfflineCnt),
                pendingPeerIds := [],
                status := { isOptimizing := s.status.isOptimizing,
                            precisionMs := lossVal,
                            epoch := epochNext s.status.epoch } }
  else some s

/-- Any number of optimizer rounds in sequence. -/
def optRounds (sqrt : ℚ → ℚ) (s : Probe) : List Env → Option Probe
  | [] => some s
  | env :: rest =>
    match optRound sqrt s env with
    | none => none
    | some s1 => optRounds sqrt s1 rest

/-! ## Specification-side definitions used to state the claims -/

/-- The elapsed time the source attributes to endpoint `e`: the end
timestamp of its successful request minus the start timestamp taken once
before the scan. -/
def echoElapsed (startMs : ℕ) (out : String → Option ℕ) (e : String) : Option ℕ :=
  (out e).map (fun t => t - startMs)

/-- The elapsed times of the successful endpoints, in scan order. -/
def succElapsed (startMs : ℕ) (out : String → Option ℕ) (l : List String) : List ℕ :=
  l.filterMap (echoElapsed startMs out)

/-- The minimum of a list of naturals, `none` on the empty list. -/
def minN : List ℕ → Option ℕ
  | [] => none
  | x :: xs =>
    some (match minN xs with
          | none => x
          | some m => min x m)

/-- The component-wise sum of a list of vectors, starting from the zero
vector of dimension `d`. -/
def vsum (d : ℕ) (vs : List (List ℚ)) : List ℚ := vs.foldl vadd (zeros d)

/-- The centroid (component-wise mean) of a list of vectors. -/
def centroid (d : ℕ) (vs : List (List ℚ)) : List ℚ :=
  (vsum d vs).map (fun x => x / (vs.length : ℚ))

/-- Every vector stored in the association list has length `d`
(invariant 3 of §3 of the specification). -/
abbrev allLen (d : ℕ) (l : List (String × List ℚ)) : Prop :=
  ∀ kv ∈ l, (kv.2 : List ℚ).length = d

/-- The loss formula claim C3 states, with its three filters (id differs
from self, id present and online in the peers map, id resolved); written
from the claim's words for comparison with `computeLoss`. -/
def lossClaimSpec (sqrt : ℚ → ℚ) (selfId : String) (peers : List (String × Peer))
    (telemetry : List (String × ℚ)) (resolved : List (String × List ℚ))
    (eps : ℚ) : ℚ :=
  (telemetry.filter (fun kv =>
      kv.1 != selfId
      && (match alookup peers kv.1 with
          | some p => p.isOnline
          | none => false)
      && (alookup resolved kv.1).isSome)).foldl
    (fun acc kv =>
      acc + |kv.2 - euclidean_distance sqrt ((alookup resolved selfId).getD [])
               ((alookup resolved kv.1).getD [])| /
             ((telemetry.length : ℚ) - 1 + eps)) 0

/-- The sum `computeLoss` actually produces when every peer of the map it
is given is online: every telemetry entry other than self contributes
(whether or not it is in the peers map), each term divided by
`|telemetry| - 1 + eps`. -/
def lossNoSkipSpec (sqrt : ℚ → ℚ) (selfId : String)
    (telemetry : List (String × ℚ)) (resolved : List (String × List ℚ))
    (myPos : List ℚ) (denom : ℚ) : ℚ :=
  (telemetry.filter (fun kv => kv.1 != selfId)).foldl
    (fun acc kv =>
      acc + |kv.2 - euclidean_distance sqrt myPos ((alookup resolved kv.1).getD [])| / denom) 0

/-! ## Generic lemmas about the association-list model -/

theorem alookup_ainsert_self {α : Type} (l : List (String × α)) (k : String) (v : α)
    (h : alookup l k = some v) : ainsert l k v = l := by
  induction l with
  | nil => simp [alookup] at h
  | cons kv rest ih =>
    obtain ⟨k0, v0⟩ := kv
    by_cases hk : k0 = k
    · subst hk
      simp [alookup] at h
      simp [ainsert, h]
    · simp [alookup, hk] at h
      simp [ainsert, hk, ih h]

theorem alookup_mem {α : Type} (l : List (String × α)) (k : String) (v : α)
    (h : alookup l k = some v) : (k, v) ∈ l := by
  induction l with
  | nil => simp [alookup] at h
  | cons kv rest ih =>
    obtain ⟨k0, v0⟩ := kv
    by_cases hk : k0 = k
    · subst hk
      simp [alookup] at h
      simp [h]
    · simp [alookup, hk] at h
      exact List.mem_cons_of_mem _ (ih h)

theorem allLen_ainsert {d : ℕ} {l : List (String × List ℚ)} {k : String} {v : List ℚ}
    (hl : allLen d l) (hv : v.length = d) : allLen d (ainsert l k v) := by
  induction l with
  | nil =>
    intro kv hkv
    simp [ainsert] at hkv
    simp [hkv, hv]
  | cons kv0 rest ih =>
    obtain ⟨k0, v0⟩ := kv0
    intro kv hkv
    by_cases hk : k0 = k
    · simp [ainsert, hk] at hkv
      rcases hkv with h | h
      · simp [h, hv]
      · exact hl kv (List.mem_cons_of_mem _ h)
    · simp only [ainsert, if_neg hk] at hkv
      rcases List.mem_cons.mp hkv with h | h
      · exact hl kv (by simp [h])
      · exact ih (fun kv hkv => hl kv (List.mem_cons_of_mem _ hkv)) kv h

theorem allLen_lookup {d : ℕ} {l : List (String × List ℚ)} {k : String} {v : List ℚ}
    (hl : allLen d l) (h : alookup l k = some v) : v.length = d :=
  hl (k, v) (alookup_mem l k v h)

theorem ainsert_ne_nil {α : Type} (l : List (String × α)) (k : String) (v : α) :
    ainsert l k v ≠ [] := by
  cases l with
  | nil => simp [ainsert]
  | cons kv rest =>
    obtain ⟨k0, v0⟩ := kv
    by_cases hk : k0 = k <;> simp [ainsert, hk]

/-! ## Concrete states and environments for counterexamples and witnesses -/

/-- Default-like parameters with a chosen `max_iters` (all other values are
the cache defaults of `Probe::new`, scaled by `1e6` as the source does). -/
def mkParams (mi : ℕ) : ProbeParameters :=
  { dimSize := 3, sampleSize := 10, detectionSize := 5, batchSize := 64,
    beta := 9 / 10, lr := 1, patience := 1000, factor := 1 / 10,
    minLr := 1 / 1000, maxIters := mi, maxOfflineCnt := 16, eps := 1 / 1000000 }

/-- An online peer record for id `"00000001"`. -/
def peerB : Peer :=
  { encodedPublicKey := "00000001", bestEndpoint := "127.0.0.1:2001",
    endpoints := ["127.0.0.1:2001"], offlineCnt := 0 }

/-- An online peer record for id `"00000002"`. -/
def peerC : Peer :=
  { encodedPublicKey := "00000002", bestEndpoint := "127.0.0.1:2002",
    endpoints := ["127.0.0.1:2002"], offlineCnt := 0 }

/-- An environment in which every sampled batch is empty and every fetch
fails: the round of an isolated node. -/
def envSilent : Env :=
  { onlineBatch := [], offlineBatch := [], echoStart := fun _ => 0,
    echoOut := fun _ _ => none, gradBatch := fun _ => [], randVec := fun _ => [],
    aggBatch := [], fetchResolved := fun _ => none }

/-- A probe whose own id is `"00000000"` with one online peer
`"00000001"`, both resolved. -/
def probeTwo : Probe :=
  { encodedPublicKey := "00000000",
    parameters := mkParams 10000,
    telemetry := [("00000000", 0)],
    resolved := [("00000000", [0, 0, 0]), ("00000001", [1, 0, 0])],
    peers := [("00000001", peerB)],
    pendingPeerIds := [],
    status := { isOptimizing := true, precisionMs := 0, epoch := 0 } }

/-- A probe with two online peers `"00000001"` and `"00000002"`, all three
ids resolved. -/
def probeThree : Probe :=
  { probeTwo with
      peers := [("00000001", peerB), ("00000002", peerC)],
      resolved := [("00000000", [0, 0, 0]), ("00000001", [1, 0, 0]),
                   ("00000002", [0, 2, 0])],
      telemetry := [("00000000", 0), ("00000001", 10), ("00000002", 10)] }

/-! ## Claim C1 -/

/-- Claim C1, counterexample.  The claim allows self as one endpoint of
`estimate`, but `Probe::estimate` looks both ids up in `peers`, which
never contains self: on a state whose own id `"00000000"` is resolved and
whose peer `"00000001"` is online and resolved, `estimate("00000000",
"00000001")` fails with `NotAPeer "00000000")` instead of returning the
distance. -/
theorem c1_counterexample :
    probeTwo.encodedPublicKey = "00000000" ∧
    alookup probeTwo.resolved "00000000" = some [0, 0, 0] ∧
    alookup probeTwo.resolved "00000001" = some [1, 0, 0] ∧
    alookup probeTwo.peers "00000001" = some peerB ∧
    peerB.isOnline = true ∧
    alookup probeTwo.peers "00000000" = none ∧
    estimate ratSqrt probeTwo "00000000" "00000001" =
      Except.error (ProbeError.notAPeer "00000000") := by
  refine ⟨rfl, by decide, by decide, by decide, by decide, by decide, by rfl⟩

/-- Claim C1 (amended): `estimate(from_id, to_id)` fails `NotAPeer` if
either id — self included, there is no self exception — is absent from
`peers` (checking `from` before `to`), fails `Offline` if either named
peer has a nonzero offline counter, fails `NotResolved` if either id lacks
a coordinate vector in `resolved`, and otherwise returns the Euclidean
distance between the two coordinate vectors. -/
theorem c1_estimate_amended (sqrt : ℚ → ℚ) (s : Probe) (f t : String) :
    (alookup s.peers f = none →
      estimate sqrt s f t = Except.error (ProbeError.notAPeer f)) ∧
    (∀ pf, alookup s.peers f = some pf → pf.isOnline = false →
      estimate sqrt s f t = Except.error (ProbeError.offline f)) ∧
    (∀ pf, alookup s.peers f = some pf → pf.isOnline = true →
      alookup s.peers t = none →
      estimate sqrt s f t = Except.error (ProbeError.notAPeer t)) ∧
    (∀ pf pt, alookup s.peers f = some pf → pf.isOnline = true →
      alookup s.peers t = some pt → pt.isOnline = false →
      estimate sqrt s f t = Except.error (ProbeError.offline t)) ∧
    (∀ pf pt, alookup s.peers f = some pf → pf.isOnline = true →
      alookup s.peers t = some pt → pt.isOnline = true →
      alookup s.resolved f = none →
      estimate sqrt s f t = Except.error (ProbeError.notResolved f)) ∧
    (∀ pf pt vf, alookup s.peers f = some pf → pf.isOnline = true →
      alookup s.peers t = some pt → pt.isOnline = true →
      alookup s.resolved f = some vf → alookup s.resolved t = none →
      estimate sqrt s f t = Except.error (ProbeError.notResolved t)) ∧
    (∀ pf pt vf vt, alookup s.peers f = some pf → pf.isOnline = true →
      alookup s.peers t = some pt → pt.isOnline = true →
      alookup s.resolved f = some vf → alookup s.resolved t = some vt →
      estimate sqrt s f t = Except.ok (euclidean_distance sqrt vf vt)) := by
  refine ⟨?_, ?_, ?_, ?_, ?_, ?_, ?_⟩
  · intro h; simp [estimate, h]
  · intro pf h1 h2; simp [estimate, h1, h2]
  · intro pf h1 h2 h3; simp [estimate, h1, h2, h3]
  · intro pf pt h1 h2 h3 h4; simp [estimate, h1, h2, h3, h4]
  · intro pf pt h1 h2 h3 h4 h5; simp [estimate, h1, h2, h3, h4, h5]
  · intro pf pt vf h1 h2 h3 h4 h5 h6; simp [estimate, h1, h2, h3, h4, h5, h6]
  · intro pf pt vf vt h1 h2 h3 h4 h5 h6; simp [estimate, h1, h2, h3, h4, h5, h6]

/-- Claim C1, witness: the success case of the amended statement on a
concrete state with two online resolved peers. -/
theorem c1_estimate_amended_witness :
    estimate ratSqrt probeThree "00000001" "00000002" =
      Except.ok (euclidean_distance ratSqrt [1, 0, 0] [0, 2, 0]) :=
  (c1_estimate_amended ratSqrt probeThree "00000001" "00000002").2.2.2.2.2.2
    peerB peerC [1, 0, 0] [0, 2, 0]
    (by decide) (by decide) (by decide) (by decide) (by decide) (by decide)

/-! ## Claim C9 -/

/-- A peer whose remembered best endpoint is not in the directory's
current answer for its id. -/
def peerStale : Peer :=
  { encodedPublicKey := "00000000", bestEndpoint := "9.9.9.9:1",
    endpoints := ["9.9.9.9:1"], offlineCnt := 0 }

/-- The result of `update_endpoints` on `peerStale`: the endpoints are
replaced, the best endpoint is untouched. -/
def peerStaleUpdated : Peer :=
  { encodedPublicKey := "00000000", bestEndpoint := "9.9.9.9:1",
    endpoints := ["127.0.0.1:2000"], offlineCnt := 0 }

/-- Claim C9, counterexample.  `Peer::update_endpoints` replaces
`endpoints` but never touches `best_endpoint`: after the call on a peer
whose best endpoint left the directory, `best_endpoint` is neither an
element of the new endpoints nor `endpoints[0]`, contradicting the claimed
keep-or-reset behaviour. -/
theorem c9_counterexample :
    updateEndpoints peerStale = some peerStaleUpdated ∧
    peerStaleUpdated.bestEndpoint ∉ peerStaleUpdated.endpoints ∧
    peerStaleUpdated.bestEndpoint ≠ "127.0.0.1:2000" := by
  refine ⟨by decide, by decide, by decide⟩

/-- Claim C9 (amended): `update_endpoints()` replaces the endpoints list
with a fresh directory lookup and leaves every other field — in
particular `best_endpoint` — unchanged; `best_endpoint` is not
re-established as a member of the new list. -/
theorem c9_update_endpoints_amended (p q : Peer) (h : updateEndpoints p = some q) :
    q.bestEndpoint = p.bestEndpoint ∧ q.encodedPublicKey = p.encodedPublicKey ∧
    q.offlineCnt = p.offlineCnt ∧
    get_address_by_id p.encodedPublicKey = some (Except.ok q.endpoints) := by
  unfold updateEndpoints at h
  cases hg : get_address_by_id p.encodedPublicKey with
  | none => rw [hg] at h; cases h
  | some r =>
    cases r with
    | error e => rw [hg] at h; cases h
    | ok eps =>
      rw [hg] at h
      cases h
      exact ⟨rfl, rfl, rfl, rfl⟩

/-- Claim C9, witness: the amended statement evaluated on the concrete
stale peer. -/
theorem c9_update_endpoints_amended_witness :
    peerStaleUpdated.bestEndpoint = peerStale.bestEndpoint ∧
    peerStaleUpdated.encodedPublicKey = peerStale.encodedPublicKey ∧
    peerStaleUpdated.offlineCnt = peerStale.offlineCnt ∧
    get_address_by_id peerStale.encodedPublicKey =
      some (Except.ok peerStaleUpdated.endpoints) :=
  c9_update_endpoints_amended peerStale peerStaleUpdated (by decide)

/-! ## Claim C6 -/

theorem optRound_not_optimizing (sqrt : ℚ → ℚ) (s : Probe) (env : Env)
    (h : s.status.isOptimizing = false) : optRound sqrt s env = some s := by
  simp [optRound, h]

/-- Claim C6 (confirmed): when `status.is_optimizing` is false at the
start of a round, the round sleeps and restarts without touching the
state; hence after `stop_optimize` any number of rounds leaves the entire
state — `resolved`, `telemetry`, `peers`, `pending_peer_ids`, `status` —
unchanged. -/
theorem c6_gated_rounds :
    (∀ (sqrt : ℚ → ℚ) (s : Probe) (envs : List Env),
      s.status.isOptimizing = false → optRounds sqrt s envs = some s) ∧
    (∀ (sqrt : ℚ → ℚ) (s : Probe) (envs : List Env),
      optRounds sqrt (stopOptimize s) envs = some (stopOptimize s)) := by
  have key : ∀ (sqrt : ℚ → ℚ) (s : Probe) (envs : List Env),
      s.status.isOptimizing = false → optRounds sqrt s envs = some s := by
    intro sqrt s envs h
    induction envs with
    | nil => rfl
    | cons env rest ih =>
      simp [optRounds, optRound_not_optimizing sqrt s env h, ih]
  exact ⟨key, fun sqrt s envs => key sqrt (stopOptimize s) envs rfl⟩

/-- Claim C6, witness: three silent rounds after `stop_optimize` on a
concrete optimizing state leave it untouched. -/
theorem c6_gated_rounds_witness :
    optRounds ratSqrt (stopOptimize probeTwo) [envSilent, envSilent, envSilent] =
      some (stopOptimize probeTwo) ∧
    optRounds ratSqrt { probeTwo with status := { probeTwo.status with isOptimizing := false } }
      [envSilent] =
      some { probeTwo with status := { probeTwo.status with isOptimizing := false } } :=
  ⟨c6_gated_rounds.2 ratSqrt probeTwo [envSilent, envSilent, envSilent],
   c6_gated_rounds.1 ratSqrt _ [envSilent] rfl⟩

/-! ## Claim C10 -/

/-- A well-formed isolated optimizing probe for id `"00000000"` whose
rounds succeed while its pending list is empty (`max_iters` is set to `0`,
a legitimate cached parameter value, to keep the round small). -/
def probeIsolated : Probe :=
  { encodedPublicKey := "00000000",
    parameters := mkParams 0,
    telemetry := [("00000000", 0)],
    resolved := [("00000000", [0, 0, 0])],
    peers := [],
    pendingPeerIds := [],
    status := { isOptimizing := true, precisionMs := 0, epoch := 0 } }

/-- Claim C10 (confirmed): for every id outside the eight hard-coded ones
the directory lookup `get_address_by_id` panics (it has no error return at
all — every normal return is an `Ok`), `Peer::new` for such an id
therefore panics as well, and since `/connected` lets any caller enqueue
an arbitrary id as pending, the publish phase of the next round — which
constructs a `Peer` for every pending id — aborts instead of failing
recoverably. -/
theorem c10_directory_panics :
    (∀ id, id ∉ knownPeerIds → get_address_by_id id = none) ∧
    (∀ id r, get_address_by_id id = some r → ∃ l, r = Except.ok l) ∧
    (∀ id, id ∉ knownPeerIds → peerNew id = none) ∧
    (addPendingPeer probeIsolated "deadbeef").pendingPeerIds = ["deadbeef"] ∧
    optRound ratSqrt probeIsolated envSilent ≠ none ∧
    optRound ratSqrt (addPendingPeer probeIsolated "deadbeef") envSilent = none := by
  have hnone : ∀ id, id ∉ knownPeerIds → get_address_by_id id = none := by
    intro id h
    simp only [knownPeerIds, List.mem_cons, List.not_mem_nil, or_false, not_or] at h
    obtain ⟨h0, h1, h2, h3, h4, h5, h6, h7⟩ := h
    simp [get_address_by_id, h0, h1, h2, h3, h4, h5, h6, h7]
  refine ⟨hnone, ?_, ?_, by decide, by decide, by decide⟩
  · intro id r h
    unfold get_address_by_id at h
    split_ifs at h <;> (cases h; exact ⟨_, rfl⟩)
  · intro id h
    simp [peerNew, hnone id h]

/-- Claim C10, witness: the universally quantified parts instantiated at
the unknown id `"deadbeef"`. -/
theorem c10_directory_panics_witness :
    get_address_by_id "deadbeef" = none ∧ peerNew "deadbeef" = none :=
  ⟨c10_directory_panics.1 "deadbeef" (by decide),
   c10_directory_panics.2.2.1 "deadbeef" (by decide)⟩

/-! ## Claim C3 -/

theorem computeLossAux_all_online (sqrt : ℚ → ℚ) (selfId : String)
    (peers : List (String × Peer)) (resolved : List (String × List ℚ))
    (myPos : List ℚ) (denom : ℚ)
    (hall : ∀ kv ∈ peers, (kv.2 : Peer).isOnline = true) :
    ∀ (tel : List (String × ℚ)) (acc : ℚ),
    (∀ kv ∈ tel, kv.1 ≠ selfId → (alookup resolved kv.1).isSome = true) →
    computeLossAux sqrt selfId peers resolved myPos denom acc tel =
      some ((tel.filter (fun kv => kv.1 != selfId)).foldl
        (fun a kv =>
          a + |kv.2 - euclidean_distance sqrt myPos ((alookup resolved kv.1).getD [])| / denom)
        acc) := by
  intro tel
  induction tel with
  | nil => intro acc _; rfl
  | cons kv rest ih =>
    intro acc hres
    obtain ⟨id, label⟩ := kv
    by_cases hid : id = selfId
    · subst hid
      simp only [computeLossAux, if_pos rfl, List.filter_cons, bne_self_eq_false,
        Bool.false_eq_true, if_false]
      exact ih acc (fun kv hkv h => hres kv (List.mem_cons_of_mem _ hkv) h)
    · have hsome := hres (id, label) (List.mem_cons_self _ _) hid
      obtain ⟨pos, hpos⟩ := Option.isSome_iff_exists.mp hsome
      have hskip : (match alookup peers id with
          | some p => decide (p.isOnline = false)
          | none => false) = false := by
        cases hp : alookup peers id with
        | none => rfl
        | some p => simp [hall (id, p) (alookup_mem peers id p hp)]
      have hbne : (id != selfId) = true := by simpa using hid
      simp only [computeLossAux, if_neg hid, hskip, Bool.false_eq_true, if_false, hpos,
        List.filter_cons, hbne, if_true, List.foldl_cons, Option.getD_some]
      exact ih _ (fun kv hkv h => hres kv (List.mem_cons_of_mem _ hkv) h)

/-- Claim C3 (amended): when the peers map handed to `compute_loss` holds
only online peers (as the call sites do, passing the retained set), the
loss is the sum over all telemetry entries other than self — whether or
not the id is in that peers map, so ids outside the retained set still
contribute — of `|telemetry[id] - dist(resolved[self], resolved[id])|`,
each term divided by `|telemetry| - 1 + eps`, provided every such id has a
resolved coordinate; an id without one makes `compute_loss` panic instead
of being skipped. -/
theorem c3_loss_amended (sqrt : ℚ → ℚ) (selfId : String)
    (peers : List (String × Peer)) (telemetry : List (String × ℚ))
    (resolved : List (String × List ℚ)) (eps : ℚ) (myPos : List ℚ)
    (hall : ∀ kv ∈ peers, (kv.2 : Peer).isOnline = true)
    (hself : alookup resolved selfId = some myPos)
    (hres : ∀ kv ∈ telemetry, kv.1 ≠ selfId → (alookup resolved kv.1).isSome = true) :
    computeLoss sqrt selfId peers telemetry resolved eps =
      some (lossNoSkipSpec sqrt selfId telemetry resolved myPos
        ((telemetry.length : ℚ) - 1 + eps)) := by
  unfold computeLoss
  rw [hself]
  exact computeLossAux_all_online sqrt selfId peers resolved myPos _ hall telemetry 0 hres

/-- Telemetry of the C3 counterexample: self plus one measured id. -/
def telC3 : List (String × ℚ) := [("00000000", 0), ("00000001", 10)]

/-- Resolved map of the C3 counterexample: both ids have coordinates at
distance 5. -/
def resC3 : List (String × List ℚ) := [("00000000", [0, 0, 0]), ("00000001", [3, 4, 0])]

theorem distC3 : euclidean_distance ratSqrt [(0 : ℚ), 0, 0] [3, 4, 0] = 5 := by
  have h25 : Nat.sqrt 25 = 5 := by
    rw [show (25 : ℕ) = 5 * 5 from rfl]
    exact Nat.sqrt_eq 5
  show ratSqrt (((0 + ((0 : ℚ) - 3) ^ 2) + ((0 : ℚ) - 4) ^ 2) + ((0 : ℚ) - 0) ^ 2) = 5
  rw [show ((0 + ((0 : ℚ) - 3) ^ 2) + ((0 : ℚ) - 4) ^ 2) + ((0 : ℚ) - 0) ^ 2 = 25 by norm_num]
  simp [ratSqrt, h25]

theorem lossValC3 :
    computeLoss ratSqrt "00000000" [] telC3 resC3 (1 / 1000000) =
      some (5000000 / 1000001) := by
  simp [computeLoss, computeLossAux, telC3, resC3, alookup]
  norm_num [distC3]

/-- Claim C3, counterexample.  With an empty retained peers map (no peer is
online) the claim's filters exclude every id, so the claimed loss is `0`;
`compute_loss` nevertheless includes the id `"00000001"` that is absent
from the peers map and returns `5 / (1 + 1e-6) = 5000000/1000001 ≠ 0`. -/
theorem c3_counterexample :
    computeLoss ratSqrt "00000000" [] telC3 resC3 (1 / 1000000) =
      some (5000000 / 1000001) ∧
    lossClaimSpec ratSqrt "00000000" [] telC3 resC3 (1 / 1000000) = 0 ∧
    (5000000 / 1000001 : ℚ) ≠ 0 := by
  refine ⟨lossValC3, ?_, by norm_num⟩
  simp [lossClaimSpec, telC3, resC3, alookup]

/-- Claim C3, witness: the amended statement evaluated on the
counterexample state, where the no-skip sum equals the value of
`compute_loss`. -/
theorem c3_loss_amended_witness :
    computeLoss ratSqrt "00000000" [] telC3 resC3 (1 / 1000000) =
      some (lossNoSkipSpec ratSqrt "00000000" telC3 resC3 [0, 0, 0]
        ((telC3.length : ℚ) - 1 + 1 / 1000000)) :=
  c3_loss_amended ratSqrt "00000000" [] telC3 resC3 (1 / 1000000) [0, 0, 0]
    (by intro kv h; cases h) (by decide) (by decide)

/-! ## Claim C8 -/

/-- The isolated probe one increment away from the `u64::MAX` modulus. -/
def probeEpochEdge : Probe :=
  { probeIsolated with
      status := { isOptimizing := true, precisionMs := 0, epoch := 18446744073709551614 } }

/-- Claim C8, counterexample.  The source computes
`(epoch + 1) % u64::MAX`, i.e. modulo `2^64 - 1`, not modulo `2^64`: at
prior epoch `2^64 - 2` a successful round publishes epoch `0`, whereas the
claim demands `(2^64 - 2 + 1) mod 2^64 = 2^64 - 1`. -/
theorem c8_counterexample :
    (optRound ratSqrt probeEpochEdge envSilent).map (fun s => s.status.epoch) = some 0 ∧
    (probeEpochEdge.status.epoch + 1) % 2 ^ 64 = 2 ^ 64 - 1 ∧
    (0 : ℕ) ≠ 2 ^ 64 - 1 := by
  refine ⟨by decide, by decide, by decide⟩

/-- Claim C8 (amended): in the publish phase of every optimizer round the
published epoch is `((epoch + 1) mod 2^64) mod (2^64 - 1)` — the wrapping
`u64` increment reduced modulo `u64::MAX`, not modulo `2^64`; the two
agree except at epoch `2^64 - 2` (published `0`) and `2^64 - 1`. -/
theorem c8_epoch_amended (sqrt : ℚ → ℚ) (s : Probe) (env : Env) (s' : Probe)
    (h1 : s.status.isOptimizing = true)
    (h2 : optRound sqrt s env = some s') :
    s'.status.epoch = ((s.status.epoch + 1) % 2 ^ 64) % (2 ^ 64 - 1) := by
  simp only [optRound, h1, if_true] at h2
  repeat' split at h2
  all_goals cases h2
  rfl

/-- Claim C8, witness: the amended statement on a concrete successful
round of the isolated probe, publishing epoch `1`. -/
theorem c8_epoch_amended_witness :
    ((optRound ratSqrt probeIsolated envSilent).getD probeIsolated).status.epoch =
      ((probeIsolated.status.epoch + 1) % 2 ^ 64) % (2 ^ 64 - 1) := by
  have hs : (optRound ratSqrt probeIsolated envSilent).isSome = true := by decide
  have h2 : optRound ratSqrt probeIsolated envSilent =
      some ((optRound ratSqrt probeIsolated envSilent).getD probeIsolated) := by
    cases ho : optRound ratSqrt probeIsolated envSilent with
    | none => rw [ho] at hs; cases hs
    | some t => simp [ho]
  exact c8_epoch_amended ratSqrt probeIsolated envSilent _ rfl h2

/-! ## Claim C7 -/

theorem optRound_empty_retained (sqrt : ℚ → ℚ) (s : Probe) (env : Env)
    (t2 : List (String × ℚ)) (p2 : List (String × Peer)) (myPos : List ℚ) (L : ℚ)
    (p3 : List (String × Peer))
    (h1 : s.status.isOptimizing = true)
    (h2 : phase2 s env = some (t2, p2))
    (h3 : p2.filter (fun kv => kv.2.isOnline) = [])
    (h4 : 1 ≤ s.parameters.maxIters)
    (h5 : ¬ s.parameters.lr < s.parameters.minLr)
    (h6 : env.gradBatch 0 = [])
    (h7 : env.aggBatch = [])
    (h8 : alookup s.resolved s.encodedPublicKey = some myPos)
    (h9 : computeLoss sqrt s.encodedPublicKey [] t2 s.resolved s.parameters.eps = some L)
    (h10 : admitPeers s.encodedPublicKey s.pendingPeerIds p2 = some p3) :
    optRound sqrt s env = some { s with
      telemetry := t2,
      resolved := s.resolved,
      peers := p3.filter (fun kv => kv.2.offlineCnt < s.parameters.maxOfflineCnt),
      pendingPeerIds := [],
      status := { isOptimizing := true, precisionMs := L,
                  epoch := epochNext s.status.epoch } } := by
  obtain ⟨n, hn⟩ : ∃ n, s.parameters.maxIters = n + 1 :=
    ⟨s.parameters.maxIters - 1, by omega⟩
  have hgrad : gradPhase sqrt s.parameters env s.encodedPublicKey [] p2 t2 s.resolved =
      some (myPos, s.resolved) := by
    simp [gradPhase, h8, hn, gradLoop, h5, h6, batchStep]
  have hins : ainsert s.resolved s.encodedPublicKey myPos = s.resolved :=
    alookup_ainsert_self _ _ _ h8
  have hagg : aggPhase s.parameters env p2 s.resolved = some (s.resolved, [], []) := by
    simp [aggPhase, h7, aggLoop, aggDivide]
  simp only [optRound, h1, if_true, h2, h3, hgrad, hins, hagg, h9, List.append_nil, h10]

/-- Claim C7 (amended): if the retained online peer set is empty when the
round reaches the embedding phase (and `max_iters ≥ 1`, `lr ≥ min_lr`, so
the loop body runs once), the inner gradient loop terminates immediately
via the `k == 0` branch and `resolved` is republished unchanged; but
`status.precision_ms` does not retain its prior value — it is recomputed
as the loss over the snapshot telemetry and resolved — and the published
epoch is `((epoch + 1) mod 2^64) mod (2^64 - 1)`. -/
theorem c7_empty_retained_amended (sqrt : ℚ → ℚ) (s : Probe) (env : Env)
    (t2 : List (String × ℚ)) (p2 : List (String × Peer)) (myPos : List ℚ) (L : ℚ)
    (p3 : List (String × Peer))
    (h1 : s.status.isOptimizing = true)
    (h2 : phase2 s env = some (t2, p2))
    (h3 : p2.filter (fun kv => kv.2.isOnline) = [])
    (h4 : 1 ≤ s.parameters.maxIters)
    (h5 : ¬ s.parameters.lr < s.parameters.minLr)
    (h6 : env.gradBatch 0 = [])
    (h7 : env.aggBatch = [])
    (h8 : alookup s.resolved s.encodedPublicKey = some myPos)
    (h9 : computeLoss sqrt s.encodedPublicKey [] t2 s.resolved s.parameters.eps = some L)
    (h10 : admitPeers s.encodedPublicKey s.pendingPeerIds p2 = some p3) :
    optRound sqrt s env = some { s with
      telemetry := t2,
      resolved := s.resolved,
      peers := p3.filter (fun kv => kv.2.offlineCnt < s.parameters.maxOfflineCnt),
      pendingPeerIds := [],
      status := { isOptimizing := true, precisionMs := L,
                  epoch := epochNext s.status.epoch } } :=
  optRound_empty_retained sqrt s env t2 p2 myPos L p3 h1 h2 h3 h4 h5 h6 h7 h8 h9 h10

/-- The probe of the C7 counterexample: no peers at all (so the retained
set is empty), a stale telemetry entry for `"00000001"`, prior
`precision_ms = 42`, and `max_iters = 1`. -/
def probeNoPeers : Probe :=
  { encodedPublicKey := "00000000",
    parameters := mkParams 1,
    telemetry := telC3,
    resolved := resC3,
    peers := [],
    pendingPeerIds := [],
    status := { isOptimizing := true, precisionMs := 42, epoch := 0 } }

/-- Claim C7, counterexample.  On a round with an empty retained set the
published `status.precision_ms` is not the prior value `42`: line 330 of
`optimize.rs` unconditionally recomputes it as the loss over the snapshot,
here `5000000/1000001`. -/
theorem c7_counterexample :
    (optRound ratSqrt probeNoPeers envSilent).map (fun s => s.status.precisionMs) =
      some (5000000 / 1000001) ∧
    probeNoPeers.status.precisionMs = 42 ∧
    (5000000 / 1000001 : ℚ) ≠ 42 := by
  refine ⟨?_, rfl, by norm_num⟩
  have h := optRound_empty_retained ratSqrt probeNoPeers envSilent telC3 [] [0, 0, 0]
    (5000000 / 1000001) [] rfl rfl rfl (by decide)
    (by show ¬ (1 : ℚ) < 1 / 1000; norm_num) rfl rfl
    (by decide) lossValC3 rfl
  rw [h]
  rfl

/-- The probe of the C7 witness: isolated, `max_iters = 1`, `min_lr = 0`. -/
def probeLoneIter : Probe :=
  { probeIsolated with
      parameters := { mkParams 1 with minLr := 0 } }

/-- Claim C7, witness: the amended statement on a concrete isolated
optimizing probe, whose round republishes `resolved` unchanged, sets
`precision_ms` to the freshly computed loss `0`, and publishes epoch `1`. -/
theorem c7_empty_retained_amended_witness :
    optRound ratSqrt probeLoneIter envSilent = some { probeLoneIter with
      telemetry := [("00000000", 0)],
      resolved := probeLoneIter.resolved,
      peers := ([] : List (String × Peer)).filter
        (fun kv => kv.2.offlineCnt < probeLoneIter.parameters.maxOfflineCnt),
      pendingPeerIds := [],
      status := { isOptimizing := true, precisionMs := 0,
                  epoch := epochNext probeLoneIter.status.epoch } } :=
  c7_empty_retained_amended ratSqrt probeLoneIter envSilent [("00000000", 0)] [] [0, 0, 0] 0 []
    rfl rfl rfl (by decide) (by decide) rfl rfl (by decide) (by decide) rfl

/-! ## Vector lemmas for the aggregation phase (claims C2 and C5) -/

theorem zipWith_add_div (n : ℚ) :
    ∀ (a x : List ℚ),
      List.zipWith (fun i j => i + j / n) a x = vadd a (x.map (fun y => y / n))
  | [], _ => by simp [vadd]
  | _ :: _, [] => by simp [vadd]
  | i :: a, j :: x => by
    simp only [List.zipWith_cons_cons, List.map_cons, vadd] at *
    exact congrArg _ (zipWith_add_div n a x)

theorem map_div_vadd (n : ℚ) :
    ∀ (a b : List ℚ),
      (vadd a b).map (fun y => y / n) = vadd (a.map (fun y => y / n)) (b.map (fun y => y / n))
  | [], _ => by simp [vadd]
  | _ :: _, [] => by simp [vadd]
  | i :: a, j :: b => by
    simp only [vadd, List.zipWith_cons_cons, List.map_cons, add_div]
    exact congrArg _ (map_div_vadd n a b)

theorem foldl_vadd_map_div (n : ℚ) :
    ∀ (vs : List (List ℚ)) (acc : List ℚ),
      vs.foldl (fun a x => vadd a (x.map (fun y => y / n))) (acc.map (fun y => y / n)) =
        (vs.foldl vadd acc).map (fun y => y / n)
  | [], acc => rfl
  | x :: vs, acc => by
    simp only [List.foldl_cons, ← map_div_vadd n acc x]
    exact foldl_vadd_map_div n vs (vadd acc x)

theorem zeros_map_div (n : ℚ) (d : ℕ) : (zeros d).map (fun y => y / n) = zeros d := by
  simp [zeros, List.map_replicate]

/-- The recentering fold of the source equals the scaled component-wise
sum. -/
theorem centerFold_eq (n : ℚ) (d : ℕ) (vs : List (List ℚ)) :
    vs.foldl (fun acc x => List.zipWith (fun i j => i + j / n) acc x) (zeros d) =
      (vs.foldl vadd (zeros d)).map (fun y => y / n) := by
  have h : ∀ (acc : List ℚ),
      vs.foldl (fun acc x => List.zipWith (fun i j => i + j / n) acc x) acc =
        vs.foldl (fun a x => vadd a (x.map (fun y => y / n))) acc := by
    intro acc
    induction vs generalizing acc with
    | nil => rfl
    | cons x vs ih => simp only [List.foldl_cons, zipWith_add_div, ih]
  rw [h (zeros d), ← zeros_map_div n d, foldl_vadd_map_div]
  rw [zeros_map_div]

theorem vadd_vsub_right :
    ∀ (a b c : List ℚ), vadd a (vsub b c) = vsub (vadd a b) c
  | [], _, _ => by simp [vadd, vsub]
  | _ :: _, [], _ => by simp [vadd, vsub]
  | _ :: _, _ :: _, [] => by simp [vadd, vsub]
  | i :: a, j :: b, k :: c => by
    simp only [vadd, vsub, List.zipWith_cons_cons]
    refine congrArg₂ _ (by ring) (vadd_vsub_right a b c)

theorem vadd_vsub_left :
    ∀ (a c b : List ℚ), vadd (vsub a c) b = vsub (vadd a b) c
  | [], _, _ => by simp [vadd, vsub]
  | _ :: _, _, [] => by simp [vadd, vsub]
  | _ :: _, [], _ :: _ => by simp [vadd, vsub]
  | i :: a, k :: c, j :: b => by
    simp only [vadd, vsub, List.zipWith_cons_cons]
    refine congrArg₂ _ (by ring) (vadd_vsub_left a c b)

theorem foldl_vadd_vsub_out :
    ∀ (vs : List (List ℚ)) (b c : List ℚ),
      vs.foldl vadd (vsub b c) = vsub (vs.foldl vadd b) c
  | [], _, _ => rfl
  | v :: vs, b, c => by
    simp only [List.foldl_cons, vadd_vsub_left]
    exact foldl_vadd_vsub_out vs (vadd b v) c

/-- Scalar multiple of a vector by a natural number. -/
def nsmul (k : ℕ) (c : List ℚ) : List ℚ := c.map (fun y => (k : ℚ) * y)

theorem vsub_vsub_nsmul (k : ℕ) :
    ∀ (x c : List ℚ), vsub (vsub x c) (nsmul k c) = vsub x (nsmul (k + 1) c)
  | [], _ => by simp [vsub, nsmul]
  | _ :: _, [] => by simp [vsub, nsmul]
  | i :: x, j :: c => by
    simp only [vsub, nsmul, List.map_cons, List.zipWith_cons_cons]
    refine congrArg₂ _ (by push_cast; ring) ?_
    exact vsub_vsub_nsmul k x c

theorem vsub_nsmul_zero :
    ∀ (a c : List ℚ), a.length = c.length → vsub a (nsmul 0 c) = a
  | [], _, _ => rfl
  | _ :: _, [], h => by simp at h
  | i :: a, j :: c, h => by
    have ht : ((0 : ℕ) : ℚ) * j = 0 := by push_cast; ring
    show (i - ((0 : ℕ) : ℚ) * j) :: vsub a (nsmul 0 c) = i :: a
    rw [ht, sub_zero]
    exact congrArg _ (vsub_nsmul_zero a c (by simpa using h))

theorem length_vadd (a b : List ℚ) : (vadd a b).length = min a.length b.length :=
  List.length_zipWith _ a b

theorem length_foldl_vadd (d : ℕ) :
    ∀ (vs : List (List ℚ)) (acc : List ℚ), acc.length = d →
      (∀ v ∈ vs, v.length = d) → (vs.foldl vadd acc).length = d
  | [], acc, hacc, _ => hacc
  | v :: vs, acc, hacc, hv => by
    simp only [List.foldl_cons]
    refine length_foldl_vadd d vs (vadd acc v) ?_ (fun w hw => hv w (List.mem_cons_of_mem _ hw))
    rw [length_vadd, hacc, hv v (List.mem_cons_self _ _), Nat.min_self]

theorem foldl_vadd_map_vsub (d : ℕ) (c : List ℚ) (hc : c.length = d) :
    ∀ (vs : List (List ℚ)) (acc : List ℚ), acc.length = d → (∀ v ∈ vs, v.length = d) →
      (vs.map (fun v => vsub v c)).foldl vadd acc =
        vsub (vs.foldl vadd acc) (nsmul vs.length c)
  | [], acc, hacc, _ => by
    simp [vsub_nsmul_zero acc c (by rw [hacc, hc])]
  | v :: vs, acc, hacc, hv => by
    simp only [List.map_cons, List.foldl_cons, List.length_cons]
    rw [vadd_vsub_right]
    rw [foldl_vadd_map_vsub d c hc vs (vsub (vadd acc v) c) ?_
        (fun w hw => hv w (List.mem_cons_of_mem _ hw))]
    · rw [foldl_vadd_vsub_out, vsub_vsub_nsmul]
    · have h1 : (vadd acc v).length = d := by
        rw [length_vadd, hacc, hv v (List.mem_cons_self _ _), Nat.min_self]
      simp only [vsub, List.length_zipWith, h1, hc, Nat.min_self]

theorem vsub_nsmul_self_div :
    ∀ (a : List ℚ) (n : ℕ), (n : ℚ) ≠ 0 →
      vsub a (nsmul n (a.map (fun y => y / (n : ℚ)))) = zeros a.length
  | [], _, _ => rfl
  | i :: a, n, hn => by
    simp only [List.map_cons, nsmul, vsub, List.zipWith_cons_cons, zeros, List.length_cons,
      List.replicate_succ]
    refine congrArg₂ _ ?_ ?_
    · rw [mul_comm, div_mul_cancel₀ _ hn, sub_self]
    · exact vsub_nsmul_self_div a n hn

/-- Recentering puts the centroid of the stored vectors exactly at the
origin (in exact arithmetic), provided the map is non-empty and every
vector has length `d`. -/
theorem recenter_centroid (d : ℕ) (r : List (String × List ℚ))
    (hlen : allLen d r) (hne : r ≠ []) :
    centroid d (avalues (recenter d r)) = zeros d := by
  have hvs : ∀ v ∈ avalues r, v.length = d := by
    intro v hv
    obtain ⟨kv, hkv, rfl⟩ := List.mem_map.mp hv
    exact hlen kv hkv
  have hnq : ((r.length : ℚ)) ≠ 0 := by
    have h0 : r.length ≠ 0 := by simpa [List.length_eq_zero] using hne
    exact_mod_cast h0
  have hsumlen : (vsum d (avalues r)).length = d :=
    length_foldl_vadd d (avalues r) (zeros d) (by simp [zeros]) hvs
  have hvals : avalues (recenter d r) =
      (avalues r).map (fun v =>
        vsub v ((vsum d (avalues r)).map (fun y => y / (r.length : ℚ)))) := by
    simp only [recenter, centerFold_eq, avalues, List.map_map]
    rfl
  rw [hvals]
  unfold centroid
  have hlen2 : ((avalues r).map (fun v =>
      vsub v ((vsum d (avalues r)).map (fun y => y / (r.length : ℚ))))).length
      = r.length := by
    simp [avalues]
  rw [show vsum d ((avalues r).map (fun v =>
        vsub v ((vsum d (avalues r)).map (fun y => y / (r.length : ℚ))))) =
      vsub (vsum d (avalues r))
        (nsmul (avalues r).length ((vsum d (avalues r)).map (fun y => y / (r.length : ℚ))))
    from foldl_vadd_map_vsub d _ (by simp [hsumlen]) (avalues r) (zeros d)
      (by simp [zeros]) hvs]
  rw [show (avalues r).length = r.length by simp [avalues]]
  rw [vsub_nsmul_self_div (vsum d (avalues r)) r.length hnq]
  rw [hsumlen, hlen2]
  exact zeros_map_div _ d

/-! ## Preservation lemmas for the aggregation phase -/

theorem aggMergeOne_allLen (d : ℕ) (kvs : List (String × List ℚ)) :
    ∀ (pending : List String) (counter : List (String × ℕ))
      (resolved : List (String × List ℚ)),
    allLen d resolved → (∀ kv ∈ kvs, kv.2.length = d) →
    allLen d (aggMergeOne kvs pending counter resolved).1 := by
  induction kvs with
  | nil => intro pending counter resolved hres _; exact hres
  | cons kv rest ih =>
    intro pending counter resolved hres hkvs
    obtain ⟨k, v⟩ := kv
    have hv : v.length = d := hkvs (k, v) (List.mem_cons_self _ _)
    have hrest : ∀ kv ∈ rest, kv.2.length = d :=
      fun kv hkv => hkvs kv (List.mem_cons_of_mem _ hkv)
    simp only [aggMergeOne]
    cases hk : alookup resolved k with
    | some old =>
      simp only [hk]
      refine ih _ _ _ ?_ hrest
      refine allLen_ainsert hres ?_
      rw [length_vadd, allLen_lookup hres hk, hv, Nat.min_self]
    | none =>
      simp only [hk]
      exact ih _ _ _ (allLen_ainsert hres hv) hrest

theorem aggMergeOne_ne_nil (kvs : List (String × List ℚ)) :
    ∀ (pending : List String) (counter : List (String × ℕ))
      (resolved : List (String × List ℚ)),
    resolved ≠ [] → (aggMergeOne kvs pending counter resolved).1 ≠ [] := by
  induction kvs with
  | nil => intro pending counter resolved hne; exact hne
  | cons kv rest ih =>
    intro pending counter resolved hne
    obtain ⟨k, v⟩ := kv
    simp only [aggMergeOne]
    cases hk : alookup resolved k with
    | some old => simp only [hk]; exact ih _ _ _ (ainsert_ne_nil _ _ _)
    | none => simp only [hk]; exact ih _ _ _ (ainsert_ne_nil _ _ _)

theorem aggLoop_allLen (d : ℕ) (env : Env) (peers : List (String × Peer))
    (batch : List String) :
    ∀ (resolved : List (String × List ℚ)) (pending : List String)
      (counter : List (String × ℕ)) res pend cnt,
    aggLoop env peers batch resolved pending counter = some (res, pend, cnt) →
    allLen d resolved →
    (∀ id kvs, env.fetchResolved id = some kvs → ∀ kv ∈ kvs, kv.2.length = d) →
    allLen d res ∧ (resolved ≠ [] → res ≠ []) := by
  induction batch with
  | nil =>
    intro resolved pending counter res pend cnt h hres _
    cases h
    exact ⟨hres, id⟩
  | cons id rest ih =>
    intro resolved pending counter res pend cnt h hres hfetch
    simp only [aggLoop] at h
    cases hp : alookup peers id with
    | none => simp only [hp] at h; exact Option.noConfusion h
    | some peer =>
      simp only [hp] at h
      cases hf : env.fetchResolved id with
      | none =>
        simp only [hf] at h
        exact ih _ _ _ _ _ _ h hres hfetch
      | some kvs =>
        simp only [hf] at h
        obtain ⟨⟨r1, p1, c1⟩, hm⟩ :
            ∃ t, aggMergeOne kvs pending counter resolved = t := ⟨_, rfl⟩
        rw [hm] at h
        have hr1 : allLen d r1 := by
          have := aggMergeOne_allLen d kvs pending counter resolved hres
            (hfetch id kvs hf)
          rwa [hm] at this
        have hne1 : resolved ≠ [] → r1 ≠ [] := by
          intro hne
          have := aggMergeOne_ne_nil kvs pending counter resolved hne
          rwa [hm] at this
        have hrec := ih r1 p1 c1 res pend cnt h hr1 hfetch
        exact ⟨hrec.1, fun hne => hrec.2 (hne1 hne)⟩

theorem aggDivide_allLen (d : ℕ) (counter : List (String × ℕ)) :
    ∀ (resolved res : List (String × List ℚ)),
    aggDivide counter resolved = some res → allLen d resolved →
    allLen d res ∧ (resolved ≠ [] → res ≠ []) := by
  induction counter with
  | nil =>
    intro resolved res h hres
    cases h
    exact ⟨hres, id⟩
  | cons kc rest ih =>
    intro resolved res h hres
    obtain ⟨k, c⟩ := kc
    simp only [aggDivide] at h
    cases hk : alookup resolved k with
    | none => simp only [hk] at h; exact Option.noConfusion h
    | some v =>
      simp only [hk] at h
      have hlen : (v.map (fun i => i / (c : ℚ))).length = d := by
        rw [List.length_map]
        exact allLen_lookup hres hk
      have hrec := ih _ _ h (allLen_ainsert hres hlen)
      exact ⟨hrec.1, fun _ => hrec.2 (ainsert_ne_nil _ _ _)⟩

theorem recenter_allLen (d : ℕ) (r : List (String × List ℚ)) (hres : allLen d r) :
    allLen d (recenter d r) := by
  intro kv hkv
  simp only [recenter, List.mem_map] at hkv
  obtain ⟨kv0, hkv0, rfl⟩ := hkv
  have hcen : ((avalues r).foldl
      (fun acc x => List.zipWith (fun i j => i + j / (r.length : ℚ)) acc x)
      (zeros d)).length = d := by
    rw [centerFold_eq]
    rw [List.length_map]
    refine length_foldl_vadd d (avalues r) (zeros d) (by simp [zeros]) ?_
    intro v hv
    obtain ⟨kv1, hkv1, rfl⟩ := List.mem_map.mp hv
    exact hres kv1 hkv1
  simp only [vsub, List.length_zipWith, hres kv0 hkv0, hcen, Nat.min_self]

theorem aggPhase_allLen (params : ProbeParameters) (env : Env)
    (peers : List (String × Peer)) (resolved res : List (String × List ℚ))
    (pend : List String) (cnt : List (String × ℕ))
    (h : aggPhase params env peers resolved = some (res, pend, cnt))
    (hres : allLen params.dimSize resolved)
    (hfetch : ∀ id kvs, env.fetchResolved id = some kvs →
      ∀ kv ∈ kvs, kv.2.length = params.dimSize) :
    allLen params.dimSize res ∧ (resolved ≠ [] → res ≠ []) := by
  simp only [aggPhase] at h
  cases hl : aggLoop env peers env.aggBatch resolved [] [] with
  | none => simp only [hl] at h; exact Option.noConfusion h
  | some t =>
    obtain ⟨r1, p1, c1⟩ := t
    simp only [hl] at h
    cases hd : aggDivide c1 r1 with
    | none => simp only [hd] at h; exact Option.noConfusion h
    | some r2 =>
      simp only [hd] at h
      have h1 := aggLoop_allLen params.dimSize env peers env.aggBatch
        resolved [] [] r1 p1 c1 hl hres hfetch
      have h2 := aggDivide_allLen params.dimSize c1 r1 r2 hd h1.1
      simp only [Option.some.injEq, Prod.mk.injEq] at h
      obtain ⟨hres2, hpend2, hcnt2⟩ := h
      subst hpend2
      subst hcnt2
      subst hres2
      by_cases hc : 0 < c1.length
      · simp only [if_pos hc]
        refine ⟨recenter_allLen params.dimSize r2 h2.1, ?_⟩
        intro hne
        have hr2 : r2 ≠ [] := h2.2 (h1.2 hne)
        simpa [recenter] using hr2
      · simp only [if_neg hc]
        exact ⟨h2.1, fun hne => h2.2 (h1.2 hne)⟩

/-! ## Claim C5 -/

/-- A probe satisfying the length invariant, with one online peer. -/
def probeTwoShort : Probe :=
  { encodedPublicKey := "00000000",
    parameters := mkParams 0,
    telemetry := [("00000000", 0)],
    resolved := [("00000000", [0, 0, 0])],
    peers := [("00000001", peerB)],
    pendingPeerIds := [],
    status := { isOptimizing := true, precisionMs := 0, epoch := 0 } }

/-- An environment whose sampled aggregation peer replies with a length-2
coordinate vector for a new id. -/
def envShortVec : Env :=
  { onlineBatch := [], offlineBatch := [], echoStart := fun _ => 0,
    echoOut := fun _ _ => none, gradBatch := fun _ => [], randVec := fun _ => [],
    aggBatch := ["00000001"],
    fetchResolved := fun _ => some [("00000002", [1, 2])] }

/-- Claim C5, counterexample.  The aggregation phase inserts remote
vectors verbatim: starting from a state satisfying the length invariant
(`dim_size = 3`), one round in which a peer's `/resolved` reply carries a
length-2 vector for a new id leaves the state with coordinates of
length 2 — the zipped recentering even truncates the existing self
vector — so the claimed invariant does not hold in every reachable
state. -/
theorem c5_counterexample :
    (∀ kv ∈ probeTwoShort.resolved, (kv.2 : List ℚ).length = probeTwoShort.parameters.dimSize) ∧
    probeTwoShort.parameters.dimSize = 3 ∧
    (optRound ratSqrt probeTwoShort envShortVec).map
      (fun s => s.resolved.map (fun kv => kv.2.length)) = some [2, 2] := by
  refine ⟨by decide, rfl, by decide⟩

/-- Claim C5 (amended): the aggregation phase preserves the length
invariant provided every vector in every fetched remote `resolved` map
has length `dim_size`; the code performs no length check of its own, so
the invariant is conditional on well-formed remote replies. -/
theorem c5_length_amended (params : ProbeParameters) (env : Env)
    (peers : List (String × Peer)) (resolved res : List (String × List ℚ))
    (pend : List String) (cnt : List (String × ℕ))
    (h : aggPhase params env peers resolved = some (res, pend, cnt))
    (hres : allLen params.dimSize resolved)
    (hfetch : ∀ id kvs, env.fetchResolved id = some kvs →
      ∀ kv ∈ kvs, kv.2.length = params.dimSize) :
    allLen params.dimSize res :=
  (aggPhase_allLen params env peers resolved res pend cnt h hres hfetch).1

/-- Claim C5, witness: the amended statement on a silent aggregation
phase of the isolated probe. -/
theorem c5_length_amended_witness :
    allLen (mkParams 0).dimSize probeIsolated.resolved :=
  c5_length_amended (mkParams 0) envSilent [] probeIsolated.resolved
    probeIsolated.resolved [] [] (by decide) (by decide)
    (by intro id kvs h; cases h)

/-! ## Claim C2 -/

/-- Claim C2 (confirmed): after the aggregation phase of any optimizer
round in which at least one aggregation occurred (the counter is
non-empty), the centroid of all coordinate vectors of the resulting
resolved map is exactly the origin in exact arithmetic — given the
well-formedness the specification's invariants provide: a non-empty
resolved map whose vectors, and all fetched remote vectors, have length
`dim_size`. -/
theorem c2_recentering (params : ProbeParameters) (env : Env)
    (peers : List (String × Peer)) (resolved res : List (String × List ℚ))
    (pend : List String) (cnt : List (String × ℕ))
    (h : aggPhase params env peers resolved = some (res, pend, cnt))
    (hres : allLen params.dimSize resolved)
    (hne : resolved ≠ [])
    (hfetch : ∀ id kvs, env.fetchResolved id = some kvs →
      ∀ kv ∈ kvs, kv.2.length = params.dimSize)
    (hcnt : cnt ≠ []) :
    centroid params.dimSize (avalues res) = zeros params.dimSize := by
  simp only [aggPhase] at h
  cases hl : aggLoop env peers env.aggBatch resolved [] [] with
  | none => simp only [hl] at h; exact Option.noConfusion h
  | some t =>
    obtain ⟨r1, p1, c1⟩ := t
    simp only [hl] at h
    cases hd : aggDivide c1 r1 with
    | none => simp only [hd] at h; exact Option.noConfusion h
    | some r2 =>
      simp only [hd] at h
      have h1 := aggLoop_allLen params.dimSize env peers env.aggBatch
        resolved [] [] r1 p1 c1 hl hres hfetch
      have h2 := aggDivide_allLen params.dimSize c1 r1 r2 hd h1.1
      simp only [Option.some.injEq, Prod.mk.injEq] at h
      obtain ⟨hres2, hpend2, hcnt2⟩ := h
      subst hpend2
      subst hcnt2
      subst hres2
      have hc : 0 < c1.length := by
        cases c1 with
        | nil => exact absurd rfl hcnt
        | cons a l => simp
      simp only [if_pos hc]
      exact recenter_centroid params.dimSize r2 h2.1 (h2.2 (h1.2 hne))

/-- The environment of the C2 witness: one aggregation peer replying with
a well-formed vector for a new id. -/
def envAggWitness : Env :=
  { onlineBatch := [], offlineBatch := [], echoStart := fun _ => 0,
    echoOut := fun _ _ => none, gradBatch := fun _ => [], randVec := fun _ => [],
    aggBatch := ["00000001"],
    fetchResolved := fun _ => some [("00000002", [1, 2, 3])] }

/-- The resolved map the C2 witness's aggregation phase produces. -/
def aggResW : List (String × List ℚ) :=
  [("00000000", [-(1/2), -1, -(3/2)]), ("00000002", [1/2, 1, 3/2])]

/-- Claim C2, witness: one concrete aggregation of the vector `[1, 2, 3]`
into the map `{self ↦ [0, 0, 0]}` recentres the cloud, whose centroid is
exactly the origin. -/
theorem c2_recentering_witness :
    centroid (mkParams 0).dimSize (avalues aggResW) = zeros (mkParams 0).dimSize :=
  c2_recentering (mkParams 0) envAggWitness [("00000001", peerB)]
    [("00000000", [0, 0, 0])] aggResW ["00000002"] [("00000002", 1)]
    (by
      simp [aggPhase, aggLoop, aggMergeOne, aggDivide, recenter, ainsert, alookup,
        avalues, vsub, vadd, zeros, aggResW, peerB, envAggWitness, mkParams]
      norm_num)
    (by decide) (by decide)
    (by intro id kvs hk; injection hk with hk; subst hk; decide)
    (by decide)


/-! ## Claim C4 -/

theorem minN_eq_none_iff : ∀ (l : List ℕ), minN l = none ↔ l = []
  | [] => by simp [minN]
  | x :: l => by simp [minN]

theorem minN_append_none (l : List ℕ) (x : ℕ) (h : minN l = none) :
    minN (l ++ [x]) = some x := by
  rw [(minN_eq_none_iff l).mp h]
  rfl

theorem minN_append_some : ∀ (l : List ℕ) (m x : ℕ), minN l = some m →
    minN (l ++ [x]) = some (min m x)
  | [], m, x, h => by cases h
  | y :: l, m, x, h => by
    cases hm : minN l with
    | none =>
      have hl : l = [] := (minN_eq_none_iff l).mp hm
      subst hl
      have hy : y = m := by simpa [minN] using h
      subst hy
      simp [minN]
    | some k =>
      have hrec := minN_append_some l k x hm
      have h1 : minN ((y :: l) ++ [x]) = some (min y (min k x)) := by
        show minN (y :: (l ++ [x])) = _
        simp [minN, hrec]
      have h2 : min y k = m := by simpa [minN, hm] using h
      subst h2
      rw [h1, Nat.min_assoc]

theorem minN_le : ∀ (l : List ℕ) (m : ℕ), minN l = some m → ∀ x ∈ l, m ≤ x
  | [], _, h => by cases h
  | y :: l, m, h => by
    intro x hx
    cases hm : minN l with
    | none =>
      have hl : l = [] := (minN_eq_none_iff l).mp hm
      subst hl
      have hy : y = m := by simpa [minN] using h
      subst hy
      rcases List.mem_cons.mp hx with rfl | hx
      · exact Nat.le_refl _
      · cases hx
    | some k =>
      have hmk : min y k = m := by simpa [minN, hm] using h
      rcases List.mem_cons.mp hx with rfl | hx
      · omega
      · have := minN_le l k hm x hx
        omega

/-- The loop invariant of the `Peer::echo` endpoint scan, relating the
fold state to the prefix of endpoints already processed: either no
endpoint succeeded yet and the state is untouched, or the best latency is
the minimum elapsed time of the prefix and the best endpoint is the first
endpoint achieving it. -/
def EchoInv (startMs : ℕ) (out : String → Option ℕ) (be0 : String)
    (pre : List String) (st : EchoSt) : Prop :=
  (st.allFailed = true ∧ succElapsed startMs out pre = [] ∧
    st.bestLatency = u128Max ∧ st.bestEndpoint = be0) ∨
  (st.allFailed = false ∧
    minN (succElapsed startMs out pre) = some st.bestLatency ∧
    pre.find? (fun e => echoElapsed startMs out e == some st.bestLatency) =
      some st.bestEndpoint)

theorem succElapsed_append_one (startMs : ℕ) (out : String → Option ℕ)
    (pre : List String) (e : String) :
    succElapsed startMs out (pre ++ [e]) =
      succElapsed startMs out pre ++ (echoElapsed startMs out e).toList := by
  simp only [succElapsed, List.filterMap_append]
  cases h : echoElapsed startMs out e <;> simp [List.filterMap, h]

theorem echoInv_step (startMs : ℕ) (out : String → Option ℕ) (be0 : String)
    (pre : List String) (st : EchoSt) (e : String)
    (hinv : EchoInv startMs out be0 pre st)
    (hval : ∀ t, out e = some t → t - startMs < u128Max) :
    EchoInv startMs out be0 (pre ++ [e]) (echoStep startMs out st e) := by
  cases hout : out e with
  | none =>
    have helap : echoElapsed startMs out e = none := by simp [echoElapsed, hout]
    have hsucc : succElapsed startMs out (pre ++ [e]) = succElapsed startMs out pre := by
      rw [succElapsed_append_one, helap]
      simp
    simp only [echoStep, hout]
    rcases hinv with ⟨h1, h2, h3, h4⟩ | ⟨h1, h2, h3⟩
    · exact Or.inl ⟨h1, by rw [hsucc]; exact h2, h3, h4⟩
    · refine Or.inr ⟨h1, by rw [hsucc]; exact h2, ?_⟩
      rw [List.find?_append, h3]
      rfl
  | some t =>
    have hd : t - startMs < u128Max := hval t hout
    have helap : echoElapsed startMs out e = some (t - startMs) := by
      simp [echoElapsed, hout]
    have hsucc : succElapsed startMs out (pre ++ [e]) =
        succElapsed startMs out pre ++ [t - startMs] := by
      rw [succElapsed_append_one, helap]
      rfl
    simp only [echoStep, hout]
    rcases hinv with ⟨h1, h2, h3, h4⟩ | ⟨h1, h2, h3⟩
    · rw [h3, if_pos hd]
      refine Or.inr ⟨rfl, ?_, ?_⟩
      · rw [hsucc, h2]
        rfl
      · rw [List.find?_append]
        have hnone : pre.find?
            (fun x => echoElapsed startMs out x == some (t - startMs)) = none := by
          rw [List.find?_eq_none]
          intro x hx
          have hex : echoElapsed startMs out x = none :=
            (List.filterMap_eq_nil_iff).mp h2 x hx
          simp [hex]
        rw [hnone]
        simp [List.find?_cons, helap]
    · by_cases hlt : t - startMs < st.bestLatency
      · rw [if_pos hlt]
        refine Or.inr ⟨rfl, ?_, ?_⟩
        · rw [hsucc, minN_append_some _ _ _ h2, Nat.min_eq_right (Nat.le_of_lt hlt)]
        · rw [List.find?_append]
          have hnone : pre.find?
              (fun x => echoElapsed startMs out x == some (t - startMs)) = none := by
            rw [List.find?_eq_none]
            intro x hx
            cases hex : echoElapsed startMs out x with
            | none => simp [hex]
            | some v =>
              have hv : v ∈ succElapsed startMs out pre := by
                simp only [succElapsed, List.mem_filterMap]
                exact ⟨x, hx, hex⟩
              have hle := minN_le _ _ h2 v hv
              have hne2 : v ≠ t - startMs := by omega
              simp [hex, hne2]
          rw [hnone]
          simp [List.find?_cons, helap]
      · rw [if_neg hlt]
        refine Or.inr ⟨rfl, ?_, ?_⟩
        · rw [hsucc, minN_append_some _ _ _ h2,
            Nat.min_eq_left (Nat.le_of_not_lt hlt)]
        · rw [List.find?_append, h3]
          rfl

theorem echoInv_foldl (startMs : ℕ) (out : String → Option ℕ) (be0 : String) :
    ∀ (l pre : List String) (st : EchoSt),
    EchoInv startMs out be0 pre st →
    (∀ e ∈ l, ∀ t, out e = some t → t - startMs < u128Max) →
    EchoInv startMs out be0 (pre ++ l) (l.foldl (echoStep startMs out) st)
  | [], pre, st, hinv, _ => by simpa using hinv
  | e :: l, pre, st, hinv, hval => by
    have hstep := echoInv_step startMs out be0 pre st e hinv
      (hval e (List.mem_cons_self _ _))
    have hrec := echoInv_foldl startMs out be0 l (pre ++ [e]) _ hstep
      (fun x hx => hval x (List.mem_cons_of_mem _ hx))
    simpa [List.append_assoc] using hrec

/-- Claim C4 (confirmed): for a peer with a non-empty endpoints list and
sane clock readings (each success ends no earlier than the scan start and
elapses less than `u128::MAX`), `echo()` probes every endpoint: it fails
(`AllEndpointsDown`) iff every endpoint's request errored — an error on
one endpoint does not abort the scan — and otherwise returns the minimum
per-endpoint elapsed milliseconds plus `100` and sets `best_endpoint` to
the first endpoint achieving that minimum. -/
theorem c4_echo (p : Peer) (startMs : ℕ) (out : String → Option ℕ)
    (hne : p.endpoints ≠ [])
    (hval : ∀ e ∈ p.endpoints, ∀ t, out e = some t →
      startMs ≤ t ∧ t - startMs < u128Max) :
    ((echo p startMs out).2 = none ↔ ∀ e ∈ p.endpoints, out e = none) ∧
    (∀ m, minN (succElapsed startMs out p.endpoints) = some m →
      (echo p startMs out).2 = some ((m + 100 : ℕ) : ℚ) ∧
      p.endpoints.find? (fun e => echoElapsed startMs out e == some m) =
        some (echo p startMs out).1.bestEndpoint) ∧
    (echo p startMs out).1.endpoints = p.endpoints := by
  have hinv0 : EchoInv startMs out p.bestEndpoint []
      { bestLatency := u128Max, allFailed := true, bestEndpoint := p.bestEndpoint } :=
    Or.inl ⟨rfl, rfl, rfl, rfl⟩
  have hfold := echoInv_foldl startMs out p.bestEndpoint p.endpoints []
    { bestLatency := u128Max, allFailed := true, bestEndpoint := p.bestEndpoint }
    hinv0 (fun e he t ht => (hval e he t ht).2)
  rw [List.nil_append] at hfold
  refine ⟨?_, ?_, rfl⟩
  · constructor
    · intro hnone
      rcases hfold with ⟨h1, h2, _, _⟩ | ⟨h1, h2, h3⟩
      · intro e he
        have hex : echoElapsed startMs out e = none :=
          (List.filterMap_eq_nil_iff).mp h2 e he
        simpa [echoElapsed] using hex
      · exfalso
        simp only [echo] at hnone
        rw [h1] at hnone
        simp at hnone
    · intro hall
      have hsucc : succElapsed startMs out p.endpoints = [] := by
        simp only [succElapsed]
        rw [List.filterMap_eq_nil_iff]
        intro e he
        simp [echoElapsed, hall e he]
      rcases hfold with ⟨h1, _, _, _⟩ | ⟨_, h2, _⟩
      · simp only [echo]
        rw [h1]
        rfl
      · rw [hsucc] at h2
        cases h2
  · intro m hm
    rcases hfold with ⟨_, h2, _, _⟩ | ⟨h1, h2, h3⟩
    · rw [h2] at hm
      cases hm
    · rw [h2] at hm
      injection hm with hm
      subst hm
      constructor
      · simp only [echo]
        rw [h1]
        rfl
      · exact h3

/-- The peer of the C4 witness, with three endpoints. -/
def peerScan : Peer :=
  { encodedPublicKey := "00000000", bestEndpoint := "a",
    endpoints := ["a", "b", "c"], offlineCnt := 0 }

/-- The HTTP outcomes of the C4 witness: `"a"` answers after 50 ms,
`"b"` and `"c"` tie after 30 ms. -/
def outScan : String → Option ℕ := fun e =>
  if e = "a" then some 150 else if e = "b" then some 130
  else if e = "c" then some 130 else none

/-- Claim C4, witness: on the concrete scan the returned ttl is the
minimum elapsed time 30 plus 100, and the best endpoint is the first
endpoint achieving the minimum. -/
theorem c4_echo_witness :
    (echo peerScan 100 outScan).2 = some ((30 + 100 : ℕ) : ℚ) ∧
    peerScan.endpoints.find? (fun e => echoElapsed 100 outScan e == some 30) =
      some (echo peerScan 100 outScan).1.bestEndpoint := by
  have hval : ∀ e ∈ peerScan.endpoints, ∀ t, outScan e = some t →
      100 ≤ t ∧ t - 100 < u128Max := by
    intro e he t ht
    fin_cases he <;> simp [outScan] at ht <;> subst ht <;> exact ⟨by decide, by decide⟩
  have h := c4_echo peerScan 100 outScan (by decide) hval
  exact h.2.1 30 (by decide)
